import Mathlib

/-!
# dv-tutorial, `main.cpp`: image preprocessing, arg-max and the batch driver

A shallow embedding of `src/main.cpp`.

* Buffers are lists.  A pointer is modelled by the list of elements that may be
  accessed through it, so the null pointer is the empty list, and an access
  outside the list is undefined behaviour (`none` / `Fault.buffer`).
* A `__fp16` cell is `Option Int`: `none` is an element that has never been
  assigned (`new __fp16[n]` does not initialise), `some v` holds the value `v`.
  The values stored by the program are `s - 128` for a byte `s`, integers in
  `[-128, 127]`; every integer of magnitude at most 2048 is exactly
  representable in binary16, so the narrowing cast changes nothing.
* `size_t` arithmetic is reduced modulo `2 ^ 64`, `unsigned` arithmetic
  modulo `2 ^ 32`, and `unsigned` to `int` conversion is two's complement on
  32 bits.  A loop that may not end is run with fuel, and `none` stands for a
  loop that is never left.
* `float` scores are modelled by the rationals they denote (finite values, no
  NaN); `numeric_limits<float>::min()` is `2 ^ (-126)`.
* OpenCV and the network object are the environment: what `cv::imread`
  returns, whether `new (nothrow)` succeeds, what `RunNetwork` and
  `get_final_output` give.
-/

namespace DvTutorial

/-! ## Machine integers -/

/-- An 8-bit sample of the RGB888 buffer. -/
abbrev uint8_t := Fin 256

/-- A `__fp16` element of the input tensor: `none` while unassigned. -/
abbrev Cell := Option Int

/-- Reduction of a natural number to the range of `size_t` (64 bits). -/
def size_t (n : Nat) : Nat := n % 2 ^ 64

/-- Conversion of an `unsigned` (32 bits) to `int`, as in `max_i = i`. -/
def int_of_unsigned (i : Nat) : Int :=
  if i % 2 ^ 32 < 2 ^ 31 then ((i % 2 ^ 32 : Nat) : Int)
  else ((i % 2 ^ 32 : Nat) : Int) - 2 ^ 32

/-! ## `preproc_image` -/

/-- The index `c * height + r + k` read from `src`. -/
def srcIndex (height c r k : Nat) : Nat := size_t (c * height + r + k)

/-- The index `r * width + c + k` written in `dst`. -/
def dstIndex (width c r k : Nat) : Nat := size_t (r * width + c + k)

/-- The value `(__fp16)(s - 128)`: `s` is promoted to `int` before the
subtraction, and the result is exactly representable. -/
def normalize (s : uint8_t) : Int := (s.val : Int) - 128

/-- The assignment `dst[i] = v`; undefined outside the buffer. -/
def store (dst : List Cell) (i : Nat) (v : Int) : Option (List Cell) :=
  if i < dst.length then some (dst.set i (some v)) else none

/-- One statement of the loop body, for the iteration `p = (c, r, k)`:
`dst[r * width + c + k] = (__fp16)(src[c * height + r + k] - 128)`. -/
def assign (src : List uint8_t) (width height : Nat) (dst : List Cell)
    (p : Nat × Nat × Nat) : Option (List Cell) :=
  match src[srcIndex height p.1 p.2.1 p.2.2]? with
  | none => none
  | some s => store dst (dstIndex width p.1 p.2.1 p.2.2) (normalize s)

/-- The body of the inner loop: the three statements for channel offsets 0, 1, 2. -/
def preproc_pixel (src : List uint8_t) (width height c r : Nat) (dst : List Cell) :
    Option (List Cell) := do
  let dst ← assign src width height dst (c, r, 0)
  let dst ← assign src width height dst (c, r, 1)
  assign src width height dst (c, r, 2)

/-- The function `preproc_image(src, dst, width, height)`: `c` runs over
`[0, width)` in the outer loop and `r` over `[0, height)` in the inner one.
The result is the final content of `dst`, or `none` when an access leaves a
buffer. -/
def preproc_image (src : List uint8_t) (dst : List Cell) (width height : Nat) :
    Option (List Cell) :=
  (List.range width).foldlM (fun dst c =>
    (List.range height).foldlM (fun dst r => preproc_pixel src width height c r dst) dst) dst

/-- The statements executed by `preproc_image`, in execution order, as
triples `(c, r, k)`. -/
def iterations (width height : Nat) : List (Nat × Nat × Nat) :=
  (List.range width).flatMap (fun c =>
    (List.range height).flatMap (fun r => [(c, r, 0), (c, r, 1), (c, r, 2)]))

/-! ## Loading and preprocessing -/

/-- Undefined behaviour reached by the program. -/
inductive Fault where
  /-- an access through a pointer outside the elements it points to -/
  | buffer
  /-- the lookup `categories[i]` with `i` outside the table -/
  | table (i : Int)
  /-- a loop without side effects that is never left -/
  | loop
  deriving DecidableEq, Repr

/-- The continuous RGB matrix obtained from `cv::imread` and `cv::cvtColor`:
`data` holds `rows * cols * 3` bytes. -/
structure Mat where
  rows : Nat
  cols : Nat
  data : List uint8_t
  deriving DecidableEq, Repr

/-- What the environment does for one command-line argument. -/
structure ImageEnv where
  /-- the argument `argv[i]` -/
  path : String
  /-- the decoded image, `none` when `raw.data == NULL` -/
  imread : Option Mat
  /-- whether `new (nothrow) __fp16[...]` returns a buffer -/
  allocOk : Bool
  /-- the result of `net.RunNetwork()` -/
  runOk : Bool
  /-- the vector filled by `net.get_final_output` -/
  output : List ℚ

/-- The function `read_image_into_rgb888`: `none` is the return value -1,
otherwise the buffer, the width (`rgb.cols`) and the height (`rgb.rows`).
The plain `new` is taken to succeed. -/
def read_image_into_rgb888 (e : ImageEnv) : Option (List uint8_t × Nat × Nat) :=
  match e.imread with
  | none => none
  | some rgb => some (rgb.data, rgb.cols, rgb.rows)

/-- The expression `new (nothrow) __fp16[n]`: `n` unassigned cells, or the null
pointer. -/
def new_nothrow (ok : Bool) (n : Nat) : List Cell :=
  if ok then List.replicate n none else []

/-- The function `read_and_preprocess_image`.  `input_buf_null` tells whether
the out-parameter `input_buf` (of type `__fp16 **`) is itself null; this is
what `if(!input_buf)` tests.  The result is the return value, `*input_buf`,
`*width` and `*height`. -/
def read_and_preprocess_image (e : ImageEnv) (input_buf_null : Bool) :
    Except Fault (Int × List Cell × Nat × Nat) :=
  match read_image_into_rgb888 e with
  | none => .ok (-1, [], 0, 0)
  | some (rgb_buf, width, height) =>
    if input_buf_null then .error Fault.buffer  -- the store `*input_buf = ...`
    else
      let input_buf := new_nothrow e.allocOk (size_t (width * height * 3))
      if input_buf_null then .ok (-1, input_buf, width, height)
      else
        match preproc_image rgb_buf input_buf width height with
        | none => .error Fault.buffer
        | some t => .ok (0, t, width, height)

/-! ## `argmax` -/

/-- The loop `for(unsigned i = 0; i < v.size(); i++)` of `argmax`, run for at
most `fuel` tests of its condition.  `i` is the 32-bit counter, so `i++` is
taken modulo `2 ^ 32`; `max` and `max_i` are the running maximum and its
index.  The result is `none` when the loop has not been left within `fuel`
tests. -/
def argmaxLoop {α : Type} [LinearOrder α] (v : List α) : Nat → Nat → α → Int → Option Int
  | 0, _, _, _ => none
  | fuel + 1, i, max, max_i =>
    match v[i]? with
    | none => some max_i
    | some x =>
      if max < x then argmaxLoop v fuel ((i + 1) % 2 ^ 32) x (int_of_unsigned i)
      else argmaxLoop v fuel ((i + 1) % 2 ^ 32) max max_i

/-- The template `argmax<T>`; `tmin` is `numeric_limits<T>::min()`.  A loop
that is left at all is left at the test number `v.size() + 1`, so the result
is `none` exactly when the loop never ends. -/
def argmax {α : Type} [LinearOrder α] (tmin : α) (v : List α) : Option Int :=
  argmaxLoop v (v.length + 1) 0 tmin (-1)

/-- The loop of `argmax` as a recursion over the elements still to be
visited, with a counter that does not wrap; it agrees with `argmaxLoop` on
vectors of fewer than `2 ^ 32` elements and serves in the proofs. -/
def argmaxList {α : Type} [LinearOrder α] : List α → Nat → α → Int → Int
  | [], _, _, max_i => max_i
  | x :: xs, i, max, max_i =>
    if max < x then argmaxList xs (i + 1) x (int_of_unsigned i)
    else argmaxList xs (i + 1) max max_i

/-- The value `numeric_limits<float>::min()`, the smallest positive normal
`float`. -/
def FLT_MIN : ℚ := 1 / 2 ^ 126

/-! ## `main` -/

/-- The results of `Initialize`, `LoadWeights` and `Commit`. -/
structure NetEnv where
  initializeOk : Bool
  loadWeightsOk : Bool
  commitOk : Bool

/-- The function `init_net`. -/
def init_net (net : NetEnv) : Int :=
  if !net.initializeOk then -1
  else if !net.loadWeightsOk then -1
  else if !net.commitOk then -1
  else 0

/-- The lookup `categories[i]` in the table of `imagenet_1000_categories.h`,
which is a parameter here. -/
def category (categories : List String) (i : Int) : Except Fault String :=
  if 0 ≤ i then
    match categories[i.toNat]? with
    | some label => .ok label
    | none => .error (Fault.table i)
  else .error (Fault.table i)

/-- One pass through the body of the main loop, entered with `ret == 0`:
the lines written to standard output so far and the new value of `ret`.
The network input region is taken to be large enough for the `memcpy`. -/
def main_body (categories : List String) (e : ImageEnv) (out : List String) :
    Except Fault (List String × Int) :=
  match read_and_preprocess_image e false with
  | .error f => .error f
  | .ok (rc, _, _, _) =>
    if rc < 0 then .ok (out, -1)
    else if !e.runOk then .ok (out, -1)
    else
      match argmax FLT_MIN e.output with
      | none => .error Fault.loop
      | some index =>
        match category categories index with
        | .error f => .error f
        | .ok label => .ok (out ++ [e.path ++ "," ++ label], 0)

/-- The main loop `for(int i = 1; i < argc && ret == 0; i++)` over the
remaining arguments. -/
def main_loop (categories : List String) :
    List ImageEnv → List String → Int → Except Fault (List String × Int)
  | [], out, ret => .ok (out, ret)
  | e :: rest, out, ret =>
    if ret = 0 then
      match main_body categories e out with
      | .error f => .error f
      | .ok (out', ret') => main_loop categories rest out' ret'
    else .ok (out, ret)

/-- The line printed by `usage()`. -/
def usage : String := "Usage: ./main images..."

/-- The function `main`: `argv` holds the arguments after the program name,
so `argc = argv.length + 1`.  The result is the list of lines written to
standard output and the value returned. -/
def main (net : NetEnv) (categories : List String) (argv : List ImageEnv) :
    Except Fault (List String × Int) :=
  if argv.length + 1 ≤ 1 then .ok ([usage], -1)
  else if init_net net ≠ 0 then .ok ([], -1)
  else main_loop categories argv [] 0

/-! ## Auxiliary notions for the statements -/

/-- A decoded image as `cv::Mat` gives it: non-empty, `int` dimensions, and
`rows * cols * 3` bytes of data. -/
def wellFormed (m : Mat) : Bool :=
  decide (1 ≤ m.rows) && decide (1 ≤ m.cols) && decide (m.rows < 2 ^ 31) &&
    decide (m.cols < 2 ^ 31) && decide (m.data.length = m.rows * m.cols * 3)

/-- The image is decoded and its tensor buffer is allocated. -/
def preprocesses (e : ImageEnv) : Bool :=
  match e.imread with
  | none => false
  | some m => wellFormed m && e.allocOk

/-- The label looked up for the image, when the index returned by `argmax`
is inside the table. -/
def label (categories : List String) (e : ImageEnv) : Option String :=
  match argmax FLT_MIN e.output with
  | none => none
  | some index =>
    match category categories index with
    | .ok l => some l
    | .error _ => none

/-- Load, preprocessing, inference and label lookup all succeed. -/
def succeeds (categories : List String) (e : ImageEnv) : Bool :=
  preprocesses e && e.runOk && (label categories e).isSome

/-- The image fails to load, or it is preprocessed and the inference fails. -/
def fails (e : ImageEnv) : Bool :=
  e.imread.isNone || (preprocesses e && !e.runOk)

/-- The line `<path>,<label>` of an image. -/
def line (categories : List String) (e : ImageEnv) : String :=
  e.path ++ "," ++ (label categories e).getD ""

/-- The samples denoted by a tensor once the bias is put back: an assigned
cell `v` is the byte `v + 128`; an unassigned cell is read as the byte 0. -/
def unbias (t : List Cell) : List uint8_t :=
  t.map (fun c => match c with
    | some v => Fin.ofNat (v + 128).toNat
    | none => 0)

/-- Preprocessing a `W`-by-`H` image, then preprocessing the result (bias put
back) as an `H`-by-`W` image. -/
def preproc_twice (src : List uint8_t) (W H : Nat) : Option (List Cell) :=
  match preproc_image src (List.replicate (W * H * 3) none) W H with
  | none => none
  | some t => preproc_image (unbias t) (List.replicate (W * H * 3) none) H W

/-! ## Concrete environments used in the examples -/

/-- A network whose initialisation succeeds. -/
def okNet : NetEnv := ⟨true, true, true⟩

/-- A category table with three labels. -/
def categories3 : List String := ["cat", "dog", "bird"]

/-- A solid-gray 2-by-2 RGB image: 12 samples, all 128. -/
def gray : Mat := ⟨2, 2, List.replicate 12 128⟩

/-- A 3-by-2 image (3 columns, 2 rows) with the samples 10, 11, ..., 27. -/
def ramp : List uint8_t :=
  [10, 11, 12, 13, 14, 15, 16, 17, 18, 19, 20, 21, 22, 23, 24, 25, 26, 27]

/-- An image that loads and is classified as `dog`. -/
def valid_png : ImageEnv := ⟨"valid.png", some gray, true, true, [1 / 10, 1 / 2, 3 / 10]⟩

/-- A path for which `cv::imread` returns an empty matrix. -/
def missing_png : ImageEnv := ⟨"missing.png", none, true, true, []⟩

/-- An image that loads and is classified as `bird`. -/
def valid2_png : ImageEnv := ⟨"valid2.png", some gray, true, true, [1 / 10, 3 / 10, 1 / 2]⟩

/-- An image that loads but whose tensor allocation fails. -/
def unallocated_png : ImageEnv :=
  ⟨"unallocated.png", some gray, false, true, [1 / 10, 1 / 2, 3 / 10]⟩

/-- An image for which the network gives an empty output vector. -/
def blank_png : ImageEnv := ⟨"blank.png", some gray, true, true, []⟩

/-! ## Lemmas and theorems -/

theorem foldlM_flatMap {α β γ : Type} (f : β → γ → Option β) (g : α → List γ) (l : List α) (b : β) :
    (l.flatMap g).foldlM f b = l.foldlM (fun acc a => (g a).foldlM f acc) b := by
  induction l generalizing b with
  | nil => simp
  | cons a l ih =>
    simp only [List.flatMap_cons, List.foldlM_append, List.foldlM_cons]
    cases h : List.foldlM f b (g a) with
    | none => simp
    | some b' => simpa using ih b'

theorem preproc_pixel_eq (src : List uint8_t) (W H c r : Nat) (dst : List Cell) :
    preproc_pixel src W H c r dst
      = [(c, r, 0), (c, r, 1), (c, r, 2)].foldlM (assign src W H) dst := by
  simp [preproc_pixel, List.foldlM]

theorem preproc_image_eq (src : List uint8_t) (dst : List Cell) (W H : Nat) :
    preproc_image src dst W H = (iterations W H).foldlM (assign src W H) dst := by
  unfold preproc_image iterations
  rw [foldlM_flatMap]
  congr 1
  funext d c
  rw [foldlM_flatMap]
  congr 1
  funext d r
  exact preproc_pixel_eq src W H c r d

theorem assign_eq_some {src : List uint8_t} {W H : Nat} {d d' : List Cell} {p : Nat × Nat × Nat}
    (h : assign src W H d p = some d') :
    ∃ s, src[srcIndex H p.1 p.2.1 p.2.2]? = some s ∧ dstIndex W p.1 p.2.1 p.2.2 < d.length ∧
      d' = d.set (dstIndex W p.1 p.2.1 p.2.2) (some (normalize s)) := by
  unfold assign at h
  cases hs : src[srcIndex H p.1 p.2.1 p.2.2]? with
  | none => simp [hs] at h
  | some s =>
    simp only [hs, store] at h
    by_cases hlt : dstIndex W p.1 p.2.1 p.2.2 < d.length
    · simp only [hlt, if_true, Option.some.injEq] at h
      exact ⟨s, rfl, hlt, h.symm⟩
    · simp [hlt] at h

theorem stores_frame (src : List uint8_t) (W H : Nat) (L : List (Nat × Nat × Nat)) :
    ∀ d d' : List Cell, L.foldlM (assign src W H) d = some d' →
      d'.length = d.length ∧
      ∀ j, (∀ p ∈ L, dstIndex W p.1 p.2.1 p.2.2 ≠ j) → d'[j]? = d[j]? := by
  induction L with
  | nil =>
    intro d d' h
    simp at h
    subst h
    simp
  | cons p L ih =>
    intro d d' h
    simp only [List.foldlM_cons] at h
    cases h1 : assign src W H d p with
    | none => simp [h1] at h
    | some d1 =>
      simp only [h1, Option.bind_eq_bind, Option.some_bind] at h
      obtain ⟨s, _, _, hd1⟩ := assign_eq_some h1
      obtain ⟨hlen, hfr⟩ := ih d1 d' h
      refine ⟨by rw [hlen, hd1, List.length_set], ?_⟩
      intro j hj
      rw [hfr j (fun q hq => hj q (List.mem_cons_of_mem _ hq)), hd1]
      exact List.getElem?_set_ne (hj p (List.mem_cons_self _ _))

theorem stores_total (src : List uint8_t) (W H : Nat) (L : List (Nat × Nat × Nat)) :
    ∀ d : List Cell,
      (∀ p ∈ L, srcIndex H p.1 p.2.1 p.2.2 < src.length ∧ dstIndex W p.1 p.2.1 p.2.2 < d.length) →
      ∃ d', L.foldlM (assign src W H) d = some d' := by
  induction L with
  | nil => intro d _; exact ⟨d, rfl⟩
  | cons p L ih =>
    intro d hb
    obtain ⟨hs, hd⟩ := hb p (List.mem_cons_self _ _)
    have h1 : assign src W H d p
        = some (d.set (dstIndex W p.1 p.2.1 p.2.2) (some (normalize (src[srcIndex H p.1 p.2.1 p.2.2])))) := by
      simp [assign, store, List.getElem?_eq_getElem hs, hd]
    obtain ⟨d', hd'⟩ := ih (d.set (dstIndex W p.1 p.2.1 p.2.2)
      (some (normalize (src[srcIndex H p.1 p.2.1 p.2.2])))) (fun q hq => by
        have := hb q (List.mem_cons_of_mem _ hq)
        simpa using this)
    exact ⟨d', by simp [List.foldlM_cons, h1, hd']⟩

theorem mem_iterations (W H : Nat) (p : Nat × Nat × Nat) :
    p ∈ iterations W H ↔ p.1 < W ∧ p.2.1 < H ∧ p.2.2 < 3 := by
  obtain ⟨c, r, k⟩ := p
  simp only [iterations, List.mem_flatMap, List.mem_range, List.mem_cons, Prod.mk.injEq,
    List.mem_singleton, List.not_mem_nil, or_false]
  constructor
  · rintro ⟨c', hc', r', hr', h⟩
    rcases h with ⟨rfl, rfl, rfl⟩ | ⟨rfl, rfl, rfl⟩ | ⟨rfl, rfl, rfl⟩ <;> simp [hc', hr']
  · rintro ⟨hc, hr, hk⟩
    refine ⟨c, hc, r, hr, ?_⟩
    simp at hk ⊢
    omega

theorem index_bound (W H c r k : Nat) (hc : c < W) (hr : r < H) (hk : k < 3) :
    c * H + r + k ≤ W * H + 1 ∧ r * W + c + k ≤ W * H + 1 := by
  have h1 : (c + 1) * H ≤ W * H := Nat.mul_le_mul_right H hc
  have h2 : (r + 1) * W ≤ H * W := Nat.mul_le_mul_right W hr
  rw [Nat.add_mul] at h1 h2
  rw [Nat.mul_comm H W] at h2
  omega

theorem size_t_of_lt {n : Nat} (h : n < 2 ^ 64) : size_t n = n := Nat.mod_eq_of_lt h

theorem size_t_le (n : Nat) : size_t n ≤ n := Nat.mod_le _ _

/-- Elements of `dst` beyond index `W * H + 1` are left as they were: no
statement of `preproc_image` stores to them. -/
theorem preproc_image_untouched (src : List uint8_t) (dst d : List Cell) (W H j : Nat)
    (hret : preproc_image src dst W H = some d) (hj : W * H + 1 < j) :
    d[j]? = dst[j]? := by
  rw [preproc_image_eq] at hret
  refine (stores_frame src W H _ dst d hret).2 j ?_
  intro p hp
  obtain ⟨h1, h2, h3⟩ := (mem_iterations W H p).1 hp
  have h4 := (index_bound W H p.1 p.2.1 p.2.2 h1 h2 h3).2
  have h5 := size_t_le (p.2.1 * W + p.1 + p.2.2)
  unfold dstIndex
  omega

/-- C9: for `W ≥ 1` and `H ≥ 1`, every index read from `src` and every index
written to `dst` is at most `W * H + 1`, which is less than `W * H * 3`, so
with buffers of `W * H * 3` elements `preproc_image` never leaves them and
returns. -/
theorem preproc_image_in_bounds (src : List uint8_t) (dst : List Cell) (W H : Nat)
    (hW : 1 ≤ W) (hH : 1 ≤ H) (hs : src.length = W * H * 3) (hd : dst.length = W * H * 3) :
    (∀ c r k, c < W → r < H → k < 3 →
      c * H + r + k ≤ W * H + 1 ∧ r * W + c + k ≤ W * H + 1 ∧
      srcIndex H c r k ≤ W * H + 1 ∧ dstIndex W c r k ≤ W * H + 1) ∧
    W * H + 1 < W * H * 3 ∧
    ∃ d, preproc_image src dst W H = some d ∧ d.length = W * H * 3 := by
  have hpos : 1 ≤ W * H := Nat.mul_pos hW hH
  have hb : ∀ c r k, c < W → r < H → k < 3 →
      c * H + r + k ≤ W * H + 1 ∧ r * W + c + k ≤ W * H + 1 ∧
      srcIndex H c r k ≤ W * H + 1 ∧ dstIndex W c r k ≤ W * H + 1 := by
    intro c r k hc hr hk
    obtain ⟨h1, h2⟩ := index_bound W H c r k hc hr hk
    exact ⟨h1, h2, le_trans (size_t_le _) h1, le_trans (size_t_le _) h2⟩
  refine ⟨hb, by omega, ?_⟩
  rw [preproc_image_eq]
  obtain ⟨d, hd'⟩ := stores_total src W H (iterations W H) dst (by
    intro p hp
    obtain ⟨h1, h2, h3⟩ := (mem_iterations W H p).1 hp
    obtain ⟨_, _, h4, h5⟩ := hb p.1 p.2.1 p.2.2 h1 h2 h3
    omega)
  exact ⟨d, hd', by rw [(stores_frame src W H _ dst d hd').1, hd]⟩

/-- Witness for C9: a 2-by-2 image. -/
theorem preproc_image_in_bounds_witness :
    (∀ c r k, c < 2 → r < 2 → k < 3 →
      c * 2 + r + k ≤ 2 * 2 + 1 ∧ r * 2 + c + k ≤ 2 * 2 + 1 ∧
      srcIndex 2 c r k ≤ 2 * 2 + 1 ∧ dstIndex 2 c r k ≤ 2 * 2 + 1) ∧
    2 * 2 + 1 < 2 * 2 * 3 ∧
    ∃ d, preproc_image (List.replicate 12 128) (List.replicate 12 none) 2 2 = some d ∧
      d.length = 2 * 2 * 3 :=
  preproc_image_in_bounds (List.replicate 12 128) (List.replicate 12 none) 2 2
    (by decide) (by decide) (by decide) (by decide)

theorem read_and_preprocess_image_ok (e : ImageEnv) (h : preprocesses e = true) :
    ∃ t W H, read_and_preprocess_image e false = .ok (0, t, W, H) := by
  unfold preprocesses at h
  cases hm : e.imread with
  | none => simp [hm] at h
  | some m =>
    simp only [hm, wellFormed, Bool.and_eq_true, decide_eq_true_eq] at h
    obtain ⟨⟨⟨⟨⟨hr, hc⟩, hr'⟩, hc'⟩, hlen⟩, halloc⟩ := h
    have hfit : m.cols * m.rows * 3 < 2 ^ 64 := by
      have : m.cols * m.rows ≤ 2 ^ 31 * 2 ^ 31 := Nat.mul_le_mul (le_of_lt hc') (le_of_lt hr')
      omega
    have hpos : 1 ≤ m.cols * m.rows := Nat.mul_pos hc hr
    obtain ⟨t, ht⟩ := stores_total m.data m.cols m.rows (iterations m.cols m.rows)
      (List.replicate (m.cols * m.rows * 3) none) (by
        intro p hp
        obtain ⟨h1, h2, h3⟩ := (mem_iterations _ _ p).1 hp
        obtain ⟨h4, h5⟩ := index_bound m.cols m.rows p.1 p.2.1 p.2.2 h1 h2 h3
        have h6 := size_t_le (p.1 * m.rows + p.2.1 + p.2.2)
        have h7 := size_t_le (p.2.1 * m.cols + p.1 + p.2.2)
        have h8 : m.rows * m.cols = m.cols * m.rows := Nat.mul_comm _ _
        simp only [srcIndex, dstIndex, List.length_replicate]
        omega)
    refine ⟨t, m.cols, m.rows, ?_⟩
    simp only [read_and_preprocess_image, read_image_into_rgb888, hm, new_nothrow, halloc,
      size_t_of_lt hfit, preproc_image_eq, ht, if_true, Bool.false_eq_true, if_false]

theorem read_and_preprocess_image_load_failure (e : ImageEnv) (h : e.imread = none) :
    read_and_preprocess_image e false = .ok (-1, [], 0, 0) := by
  simp [read_and_preprocess_image, read_image_into_rgb888, h]

theorem main_body_succeeds (categories : List String) (e : ImageEnv) (out : List String)
    (h : succeeds categories e = true) :
    main_body categories e out = .ok (out ++ [line categories e], 0) := by
  simp only [succeeds, Bool.and_eq_true] at h
  obtain ⟨⟨hp, hrun⟩, hl⟩ := h
  obtain ⟨t, W, H, hrp⟩ := read_and_preprocess_image_ok e hp
  unfold main_body
  rw [hrp]
  simp only [hrun]
  unfold line
  unfold label at hl ⊢
  cases ha : argmax FLT_MIN e.output with
  | none => simp [ha] at hl
  | some index =>
    cases hc : category categories index with
    | error f => simp [ha, hc] at hl
    | ok l => simp [hc]

theorem main_body_fails (categories : List String) (e : ImageEnv) (out : List String)
    (h : fails e = true) :
    main_body categories e out = .ok (out, -1) := by
  simp only [fails, Bool.or_eq_true, Bool.and_eq_true, Option.isNone_iff_eq_none] at h
  rcases h with h | ⟨hp, hrun⟩
  · unfold main_body
    rw [read_and_preprocess_image_load_failure e h]
    simp
  · obtain ⟨t, W, H, hrp⟩ := read_and_preprocess_image_ok e hp
    unfold main_body
    rw [hrp]
    simp at hrun
    simp [hrun]

theorem main_loop_stopped (categories : List String) (l : List ImageEnv) (out : List String)
    (ret : Int) (h : ret ≠ 0) : main_loop categories l out ret = .ok (out, ret) := by
  cases l with
  | nil => rfl
  | cons e rest => simp [main_loop, h]

theorem main_loop_succeeding (categories : List String) (good : List ImageEnv) :
    ∀ (tail : List ImageEnv) (out : List String),
      (∀ e ∈ good, succeeds categories e = true) →
      main_loop categories (good ++ tail) out 0
        = main_loop categories tail (out ++ good.map (line categories)) 0 := by
  induction good with
  | nil => intro tail out _; simp
  | cons e good ih =>
    intro tail out h
    have he := h e (List.mem_cons_self _ _)
    simp only [List.cons_append, main_loop, if_true, main_body_succeeds categories e out he,
      List.append_eq]
    rw [ih tail _ (fun x hx => h x (List.mem_cons_of_mem _ hx))]
    simp

theorem main_first_failure (net : NetEnv) (categories : List String)
    (good : List ImageEnv) (bad : ImageEnv) (rest : List ImageEnv)
    (hnet : init_net net = 0)
    (hgood : ∀ e ∈ good, succeeds categories e = true)
    (hbad : fails bad = true) :
    main net categories (good ++ bad :: rest) = .ok (good.map (line categories), -1) := by
  unfold main
  rw [if_neg (by simp), if_neg (by simp [hnet]), main_loop_succeeding categories good _ _ hgood]
  simp only [main_loop, if_true, main_body_fails categories bad _ hbad, List.nil_append]
  exact main_loop_stopped categories rest _ (-1) (by decide)

theorem main_all_succeed (net : NetEnv) (categories : List String)
    (good : List ImageEnv) (hnet : init_net net = 0) (hne : good ≠ [])
    (hgood : ∀ e ∈ good, succeeds categories e = true) :
    main net categories good = .ok (good.map (line categories), 0) := by
  unfold main
  have hlen : ¬ good.length + 1 ≤ 1 := by
    cases good with
    | nil => exact absurd rfl hne
    | cons e l => simp
  rw [if_neg hlen, if_neg (by simp [hnet])]
  have := main_loop_succeeding categories good [] [] hgood
  rw [List.append_nil] at this
  rw [this]
  simp [main_loop]

/-- Exit status of `main` on runs without undefined behaviour: when every
argument either succeeds or fails cleanly (load or inference failure), `main`
returns, and it returns 0 exactly when there is an argument, `init_net`
succeeds and every image succeeds. -/
theorem main_exit_status (net : NetEnv) (categories : List String) (argv : List ImageEnv)
    (hclean : ∀ e ∈ argv, succeeds categories e = true ∨ fails e = true) :
    ∃ out st, main net categories argv = .ok (out, st) ∧
      (st = 0 ↔ argv ≠ [] ∧ init_net net = 0 ∧ ∀ e ∈ argv, succeeds categories e = true) := by
  by_cases hne : argv = []
  · subst hne
    exact ⟨_, -1, rfl, by simp⟩
  by_cases hnet : init_net net = 0
  swap
  · refine ⟨[], -1, ?_, by simp [hnet]⟩
    unfold main
    have hlen : ¬ argv.length + 1 ≤ 1 := by
      cases argv with
      | nil => exact absurd rfl hne
      | cons e l => simp
    rw [if_neg hlen, if_pos hnet]
  by_cases hall : ∀ e ∈ argv, succeeds categories e = true
  · exact ⟨_, 0, main_all_succeed net categories argv hnet hne hall,
      ⟨fun _ => ⟨hne, hnet, hall⟩, fun _ => rfl⟩⟩
  · -- split at the first image that does not succeed
    have hsplit : ∀ l : List ImageEnv, (∀ e ∈ l, succeeds categories e = true ∨ fails e = true) →
        (¬ ∀ e ∈ l, succeeds categories e = true) →
        ∃ good bad rest, l = good ++ bad :: rest ∧
          (∀ e ∈ good, succeeds categories e = true) ∧ fails bad = true := by
      intro l
      induction l with
      | nil => intro _ h; simp at h
      | cons e l ih =>
        intro hc hn
        by_cases he : succeeds categories e = true
        · have hn' : ¬ ∀ x ∈ l, succeeds categories x = true := by
            intro hl
            apply hn
            intro x hx
            rcases List.mem_cons.1 hx with rfl | hx
            · exact he
            · exact hl x hx
          obtain ⟨good, bad, rest, hl, hg, hb⟩ :=
            ih (fun x hx => hc x (List.mem_cons_of_mem _ hx)) hn'
          refine ⟨e :: good, bad, rest, by simp [hl], ?_, hb⟩
          intro x hx
          rcases List.mem_cons.1 hx with rfl | hx
          · exact he
          · exact hg x hx
        · refine ⟨[], e, l, rfl, by simp, ?_⟩
          rcases hc e (List.mem_cons_self _ _) with h | h
          · exact absurd h he
          · exact h
    obtain ⟨good, bad, rest, hl, hg, hb⟩ := hsplit argv hclean hall
    refine ⟨_, -1, hl ▸ main_first_failure net categories good bad rest hnet hg hb, ?_⟩
    simp [hall]

theorem int_of_unsigned_of_lt {i : Nat} (h : i < 2 ^ 31) : int_of_unsigned i = (i : Int) := by
  have h1 : i % 2 ^ 32 = i := Nat.mod_eq_of_lt (by omega)
  unfold int_of_unsigned
  rw [h1, if_pos h]

theorem argmaxList_spec {α : Type} [LinearOrder α] (xs : List α) :
    ∀ (i : Nat) (max : α) (max_i : Int),
      ((∀ x ∈ xs, ¬ max < x) ∧ argmaxList xs i max max_i = max_i) ∨
      (∃ j m, xs[j]? = some m ∧ argmaxList xs i max max_i = int_of_unsigned (i + j) ∧
        max < m ∧ (∀ x ∈ xs, x ≤ m) ∧ ∀ j' y, j' < j → xs[j']? = some y → y < m) := by
  induction xs with
  | nil => intro i max max_i; left; simp [argmaxList]
  | cons x xs ih =>
    intro i max max_i
    by_cases hx : max < x
    · right
      rcases ih (i + 1) x (int_of_unsigned i) with ⟨hall, hres⟩ | ⟨j, m, hj, hres, hlt, hall, hfirst⟩
      · refine ⟨0, x, by simp, by simp [argmaxList, hx, hres], hx, ?_, ?_⟩
        · intro y hy
          rcases List.mem_cons.1 hy with rfl | hy
          · exact le_rfl
          · exact not_lt.1 (hall y hy)
        · intro j' y hj'
          omega
      · refine ⟨j + 1, m, by simpa using hj, ?_, lt_trans hx hlt, ?_, ?_⟩
        · simp only [argmaxList, hx, if_true, hres]
          congr 1
          omega
        · intro y hy
          rcases List.mem_cons.1 hy with rfl | hy
          · exact le_of_lt hlt
          · exact hall y hy
        · intro j' y hj' hy
          cases j' with
          | zero =>
            simp at hy
            subst hy
            exact hlt
          | succ j'' =>
            simp at hy
            exact hfirst j'' y (by omega) hy
    · rcases ih (i + 1) max max_i with ⟨hall, hres⟩ | ⟨j, m, hj, hres, hlt, hall, hfirst⟩
      · left
        refine ⟨?_, by simp [argmaxList, hx, hres]⟩
        intro y hy
        rcases List.mem_cons.1 hy with rfl | hy
        · exact hx
        · exact hall y hy
      · right
        refine ⟨j + 1, m, by simpa using hj, ?_, hlt, ?_, ?_⟩
        · simp only [argmaxList, hx, if_false, hres]
          congr 1
          omega
        · intro y hy
          rcases List.mem_cons.1 hy with rfl | hy
          · exact le_of_lt (lt_of_le_of_lt (not_lt.1 hx) hlt)
          · exact hall y hy
        · intro j' y hj' hy
          cases j' with
          | zero =>
            simp at hy
            subst hy
            exact lt_of_le_of_lt (not_lt.1 hx) hlt
          | succ j'' =>
            simp at hy
            exact hfirst j'' y (by omega) hy

theorem FLT_MIN_pos : (0 : ℚ) < FLT_MIN := by
  unfold FLT_MIN
  positivity

theorem argmaxLoop_eq_list {α : Type} [LinearOrder α] (v : List α) (hv : v.length < 2 ^ 32) :
    ∀ (fuel i : Nat) (max : α) (max_i : Int), i ≤ v.length → v.length - i < fuel →
      argmaxLoop v fuel i max max_i = some (argmaxList (v.drop i) i max max_i) := by
  intro fuel
  induction fuel with
  | zero => intro i max max_i _ h; omega
  | succ fuel ih =>
    intro i max max_i hi hfuel
    by_cases hlt : i < v.length
    · have hmod : (i + 1) % 2 ^ 32 = i + 1 := Nat.mod_eq_of_lt (by omega)
      rw [argmaxLoop, List.getElem?_eq_getElem hlt, List.drop_eq_getElem_cons hlt, argmaxList,
        hmod]
      simp only
      split
      · exact ih (i + 1) _ _ (by omega) (by omega)
      · exact ih (i + 1) _ _ (by omega) (by omega)
    · have hlen : v.length ≤ i := by omega
      rw [argmaxLoop, List.getElem?_eq_none hlen, List.drop_eq_nil_of_le hlen, argmaxList]

theorem argmax_eq_list {α : Type} [LinearOrder α] (tmin : α) (v : List α)
    (hv : v.length < 2 ^ 32) : argmax tmin v = some (argmaxList v 0 tmin (-1)) := by
  have := argmaxLoop_eq_list v hv (v.length + 1) 0 tmin (-1) (Nat.zero_le _) (by omega)
  simpa [argmax] using this

theorem argmaxLoop_diverges {α : Type} [LinearOrder α] (v : List α) (hv : 2 ^ 32 ≤ v.length) :
    ∀ (fuel i : Nat) (max : α) (max_i : Int), i < 2 ^ 32 →
      argmaxLoop v fuel i max max_i = none := by
  intro fuel
  induction fuel with
  | zero => intro i max max_i _; rfl
  | succ fuel ih =>
    intro i max max_i hi
    have hlt : i < v.length := by omega
    rw [argmaxLoop, List.getElem?_eq_getElem hlt]
    simp only
    split
    · exact ih _ _ _ (Nat.mod_lt _ (by norm_num))
    · exact ih _ _ _ (Nat.mod_lt _ (by norm_num))

theorem argmaxList_zeros_one (n : Nat) : ∀ (i : Nat) (max_i : Int),
    argmaxList (List.replicate n (0 : ℚ) ++ [1]) i FLT_MIN max_i = int_of_unsigned (i + n) := by
  have hpos : (0 : ℚ) < FLT_MIN := by unfold FLT_MIN; positivity
  have h1 : FLT_MIN < 1 := by norm_num [FLT_MIN]
  induction n with
  | zero => intro i max_i; simp [argmaxList, h1]
  | succ n ih =>
    intro i max_i
    rw [List.replicate_succ, List.cons_append, argmaxList, if_neg (not_lt.2 (le_of_lt hpos)),
      ih (i + 1) max_i]
    congr 1
    omega

theorem argmax_diverges {α : Type} [LinearOrder α] (tmin : α) (v : List α)
    (hv : 2 ^ 32 ≤ v.length) : argmax tmin v = none :=
  argmaxLoop_diverges v hv (v.length + 1) 0 tmin (-1) (by norm_num)

theorem one_mem_zeros_one (n : Nat) : (1 : ℚ) ∈ List.replicate n (0 : ℚ) ++ [1] :=
  List.mem_append_right _ (List.mem_singleton.2 rfl)

/-- C10 (amended): for a vector of at most `2 ^ 31` elements `argmax` returns,
and it returns -1 exactly when no element is strictly greater than
`numeric_limits<T>::min()`; otherwise it returns an index below the size at
which the vector holds its maximum (the first such index).  For `float`, such
a vector whose scores are all zero or negative gives -1. -/
theorem argmax_spec {α : Type} [LinearOrder α] (tmin : α) (v : List α)
    (hsize : v.length ≤ 2 ^ 31) :
    (∃ r, argmax tmin v = some r) ∧
    (argmax tmin v = some (-1) ↔ ∀ x ∈ v, ¬ tmin < x) ∧
    ((∃ x ∈ v, tmin < x) →
      ∃ i m, i < v.length ∧ v[i]? = some m ∧ argmax tmin v = some (i : Int) ∧
        (∀ x ∈ v, x ≤ m) ∧ ∀ j y, j < i → v[j]? = some y → y < m) ∧
    (∀ w : List ℚ, w.length ≤ 2 ^ 31 → (∀ x ∈ w, x ≤ 0) → argmax FLT_MIN w = some (-1)) := by
  have key : ∀ {β : Type} [LinearOrder β] (t : β) (u : List β), u.length ≤ 2 ^ 31 →
      ((∀ x ∈ u, ¬ t < x) ∧ argmax t u = some (-1)) ∨
      (∃ i m, i < u.length ∧ u[i]? = some m ∧ argmax t u = some (i : Int) ∧ t < m ∧
        (∀ x ∈ u, x ≤ m) ∧ ∀ j y, j < i → u[j]? = some y → y < m) := by
    intro β _ t u hu
    rw [argmax_eq_list t u (by omega)]
    rcases argmaxList_spec u 0 t (-1) with ⟨hall, hres⟩ | ⟨j, m, hj, hres, hlt, hall, hfirst⟩
    · exact Or.inl ⟨hall, by rw [hres]⟩
    · right
      have hjlt : j < u.length := (List.getElem?_eq_some.1 hj).choose
      refine ⟨j, m, hjlt, hj, ?_, hlt, hall, hfirst⟩
      rw [hres, Nat.zero_add, int_of_unsigned_of_lt (by omega)]
  refine ⟨?_, ?_, ?_, ?_⟩
  · rcases key tmin v hsize with ⟨_, hres⟩ | ⟨i, _, _, _, hres, _⟩
    · exact ⟨_, hres⟩
    · exact ⟨_, hres⟩
  · rcases key tmin v hsize with ⟨hall, hres⟩ | ⟨i, m, _, hi, hres, hlt, _, _⟩
    · exact ⟨fun _ => hall, fun _ => hres⟩
    · constructor
      · intro h
        rw [hres] at h
        have := Option.some.inj h
        omega
      · intro h
        exact absurd hlt (h m (List.getElem?_mem hi))
  · rintro ⟨x, hx, hlt⟩
    rcases key tmin v hsize with ⟨hall, _⟩ | ⟨i, m, hil, hi, hres, _, hall, hfirst⟩
    · exact absurd hlt (hall x hx)
    · exact ⟨i, m, hil, hi, hres, hall, hfirst⟩
  · intro w hw hneg
    rcases key FLT_MIN w hw with ⟨_, hres⟩ | ⟨i, m, _, hi, _, hlt, _, _⟩
    · exact hres
    · exact absurd (lt_of_lt_of_le (lt_trans FLT_MIN_pos hlt) (hneg m (List.getElem?_mem hi)))
        (lt_irrefl _)

/-- Witness for C10 (amended): the vector `[1/5, 9/10, 9/10, 1/10]` of `float`
scores. -/
theorem argmax_spec_witness :
    (∃ r, argmax FLT_MIN [1 / 5, 9 / 10, 9 / 10, 1 / 10] = some r) ∧
    (argmax FLT_MIN [1 / 5, 9 / 10, 9 / 10, 1 / 10] = some (-1) ↔
      ∀ x ∈ ([1 / 5, 9 / 10, 9 / 10, 1 / 10] : List ℚ), ¬ FLT_MIN < x) ∧
    ((∃ x ∈ ([1 / 5, 9 / 10, 9 / 10, 1 / 10] : List ℚ), FLT_MIN < x) →
      ∃ i m, i < ([1 / 5, 9 / 10, 9 / 10, 1 / 10] : List ℚ).length ∧
        ([1 / 5, 9 / 10, 9 / 10, 1 / 10] : List ℚ)[i]? = some m ∧
        argmax FLT_MIN [1 / 5, 9 / 10, 9 / 10, 1 / 10] = some (i : Int) ∧
        (∀ x ∈ ([1 / 5, 9 / 10, 9 / 10, 1 / 10] : List ℚ), x ≤ m) ∧
        ∀ j y, j < i → ([1 / 5, 9 / 10, 9 / 10, 1 / 10] : List ℚ)[j]? = some y → y < m) ∧
    (∀ w : List ℚ, w.length ≤ 2 ^ 31 → (∀ x ∈ w, x ≤ 0) → argmax FLT_MIN w = some (-1)) :=
  argmax_spec FLT_MIN [1 / 5, 9 / 10, 9 / 10, 1 / 10] (by decide)

/-- Counterexample to C10: on the `float` vector of `2 ^ 31` zeros followed by
a one, an element is greater than `numeric_limits<float>::min()` and `argmax`
returns -2147483648, the `int` that the index `2 ^ 31` converts to, which is
neither -1 nor an index; on a vector of `2 ^ 32` elements the counter wraps
before reaching the size and `argmax` never returns. -/
theorem argmax_index_wraps :
    argmax FLT_MIN (List.replicate (2 ^ 31) (0 : ℚ) ++ [1]) = some (-2147483648) ∧
    (∃ x ∈ List.replicate (2 ^ 31) (0 : ℚ) ++ [1], FLT_MIN < x) ∧
    (¬ ∃ i : Nat, argmax FLT_MIN (List.replicate (2 ^ 31) (0 : ℚ) ++ [1]) = some (i : Int)) ∧
    argmax FLT_MIN (List.replicate (2 ^ 32) (1 : ℚ)) = none := by
  have hlen : (List.replicate (2 ^ 31) (0 : ℚ) ++ [1]).length < 2 ^ 32 := by
    rw [List.length_append, List.length_replicate]
    decide
  have h : argmax FLT_MIN (List.replicate (2 ^ 31) (0 : ℚ) ++ [1]) = some (-2147483648) := by
    rw [argmax_eq_list FLT_MIN _ hlen, argmaxList_zeros_one (2 ^ 31) 0 (-1)]
    decide
  have h1 : FLT_MIN < 1 := by norm_num [FLT_MIN]
  refine ⟨h, ?_, ?_, ?_⟩
  · exact ⟨1, one_mem_zeros_one (2 ^ 31), h1⟩
  · rintro ⟨i, hi⟩
    rw [h] at hi
    have := Option.some.inj hi
    omega
  · exact argmax_diverges FLT_MIN _ (le_of_eq (List.length_replicate _ _).symm)


/-- C2: on the vector `[0, -1]` of `float` scores `argmax` returns -1, not
the index 0 of the maximum; on `[1/5, 9/10, 9/10, 1/10]` it returns 1 and on
the empty vector -1. -/
theorem argmax_misses_nonpositive_maximum :
    argmax FLT_MIN [0, -1] = some (-1) ∧
    argmax FLT_MIN [1 / 5, 9 / 10, 9 / 10, 1 / 10] = some 1 ∧
    argmax FLT_MIN ([] : List ℚ) = some (-1) := by
  refine ⟨?_, ?_, rfl⟩ <;> norm_num [argmax, argmaxLoop, FLT_MIN, int_of_unsigned]

/-! ## The examples -/

theorem argmax_valid_png : argmax FLT_MIN valid_png.output = some 1 := by
  norm_num [valid_png, argmax, argmaxLoop, FLT_MIN, int_of_unsigned]

theorem argmax_valid2_png : argmax FLT_MIN valid2_png.output = some 2 := by
  norm_num [valid2_png, argmax, argmaxLoop, FLT_MIN, int_of_unsigned]

theorem label_valid_png : label categories3 valid_png = some "dog" := by
  unfold label
  rw [argmax_valid_png]
  rfl

theorem label_valid2_png : label categories3 valid2_png = some "bird" := by
  unfold label
  rw [argmax_valid2_png]
  rfl

theorem succeeds_valid_png : succeeds categories3 valid_png = true := by
  unfold succeeds
  rw [label_valid_png]
  rfl

theorem succeeds_valid2_png : succeeds categories3 valid2_png = true := by
  unfold succeeds
  rw [label_valid2_png]
  rfl

theorem line_valid_png : line categories3 valid_png = "valid.png,dog" := by
  unfold line
  rw [label_valid_png]
  rfl

theorem line_valid2_png : line categories3 valid2_png = "valid2.png,bird" := by
  unfold line
  rw [label_valid2_png]
  rfl

theorem fails_missing_png : fails missing_png = true := rfl

/-! ## The batch driver -/

/-- C3 (amended): a per-image failure ends the batch.  When `init_net`
succeeds, the driver emits exactly one line `<path>,<label>` for each image
that precedes the first image whose load or inference fails (these images
being loaded, preprocessed, inferred and labelled successfully), in input
order, and no line for the failing image or any image after it; when no image
fails, it emits one line for each image. -/
theorem main_stops_at_first_failure (net : NetEnv) (categories : List String)
    (good : List ImageEnv) (bad : ImageEnv) (rest : List ImageEnv)
    (hnet : init_net net = 0)
    (hgood : ∀ e ∈ good, succeeds categories e = true)
    (hbad : fails bad = true) :
    main net categories (good ++ bad :: rest) = .ok (good.map (line categories), -1) ∧
    (good ≠ [] → main net categories good = .ok (good.map (line categories), 0)) :=
  ⟨main_first_failure net categories good bad rest hnet hgood hbad,
    fun hne => main_all_succeed net categories good hnet hne hgood⟩

/-- Witness for C3 (amended): the batch `[valid.png, missing.png, valid2.png]`. -/
theorem main_stops_at_first_failure_witness :
    main okNet categories3 ([valid_png] ++ missing_png :: [valid2_png])
      = .ok ([valid_png].map (line categories3), -1) ∧
    ([valid_png] ≠ [] →
      main okNet categories3 [valid_png] = .ok ([valid_png].map (line categories3), 0)) :=
  main_stops_at_first_failure okNet categories3 [valid_png] missing_png [valid2_png] rfl
    (by
      intro e he
      rw [List.mem_singleton.1 he]
      exact succeeds_valid_png)
    fails_missing_png

/-- Counterexample to C3: for `[valid.png, missing.png, valid2.png]` the
driver emits the single line of `valid.png` and returns -1; the line of
`valid2.png`, which would load and be classified as `bird`, is not emitted. -/
theorem main_skips_images_after_failure :
    main okNet categories3 [valid_png, missing_png, valid2_png] = .ok (["valid.png,dog"], -1) ∧
    succeeds categories3 valid2_png = true ∧
    ¬ ∃ st, main okNet categories3 [valid_png, missing_png, valid2_png]
        = .ok (["valid.png,dog", "valid2.png,bird"], st) := by
  have h : main okNet categories3 [valid_png, missing_png, valid2_png]
      = .ok (["valid.png,dog"], -1) := by
    have := main_first_failure okNet categories3 [valid_png] missing_png [valid2_png] rfl
      (by
        intro e he
        rw [List.mem_singleton.1 he]
        exact succeeds_valid_png)
      fails_missing_png
    simpa [line_valid_png] using this
  refine ⟨h, succeeds_valid2_png, ?_⟩
  rintro ⟨st, hst⟩
  rw [h] at hst
  simp at hst

/-- C4: for an image whose tensor allocation fails, `main` does not return a
non-zero status: `preproc_image` is run on the null buffer and the behaviour
is undefined. -/
theorem main_allocation_failure :
    main okNet categories3 [unallocated_png] = .error Fault.buffer := rfl

/-- C5: for an image whose output vector is empty, `argmax` returns -1 and
the driver performs the lookup `categories[-1]`. -/
theorem main_looks_up_minus_one :
    argmax FLT_MIN blank_png.output = some (-1) ∧
    main okNet categories3 [blank_png] = .error (Fault.table (-1)) :=
  ⟨rfl, rfl⟩

/-! ## The tensor -/

/-- C6: for the solid-gray 2-by-2 image the tensor has 12 elements, of which
only the first 6 are assigned (the value 0); the elements 6 to 11 are never
written. -/
theorem gray_tensor_partly_unassigned :
    read_and_preprocess_image blank_png false
      = .ok (0, [some 0, some 0, some 0, some 0, some 0, some 0,
          none, none, none, none, none, none], 2, 2) := rfl

/-- C7: preprocessing the 3-by-2 image `ramp` and then preprocessing the
result as a 2-by-3 image does not give back the original layout: element 1
holds the sample of index 5 (`15 - 128`), not that of index 1. -/
theorem preproc_twice_differs :
    preproc_image ramp (List.replicate 18 none) 3 2
      = some [some (-118), some (-116), some (-114), some (-113), some (-112), some (-113),
          some (-112), some (-111), none, none, none, none, none, none, none, none, none, none] ∧
    preproc_twice ramp 3 2
      = some [some (-118), some (-113), some (-112), some (-112), some (-113), some (-113),
          some (-112), some (-111), none, none, none, none, none, none, none, none, none, none] ∧
    ¬ ∃ t, preproc_twice ramp 3 2 = some t ∧
        ∀ j s, j ≤ 3 * 2 + 1 → ramp[j]? = some s → t[j]? = some (some (normalize s)) := by
  have h : preproc_twice ramp 3 2
      = some [some (-118), some (-113), some (-112), some (-112), some (-113), some (-113),
          some (-112), some (-111), none, none, none, none, none, none, none, none, none,
          none] := by decide
  refine ⟨by decide, h, ?_⟩
  rintro ⟨t, ht, hall⟩
  rw [h] at ht
  have h1 := hall 1 11 (by decide) (by decide)
  rw [← Option.some.inj ht] at h1
  revert h1
  decide

/-- C8: when the allocation of the tensor fails, `read_and_preprocess_image`
does not return -1: the test `if(!input_buf)` examines the out-parameter, which
is not null, and `preproc_image` is run on the null buffer. -/
theorem read_and_preprocess_image_null_buffer :
    read_and_preprocess_image unallocated_png false = .error Fault.buffer ∧
    read_and_preprocess_image unallocated_png false
      ≠ .ok (-1, new_nothrow false (size_t (2 * 2 * 3)), 2, 2) := by
  refine ⟨rfl, ?_⟩
  intro h
  have h' : read_and_preprocess_image unallocated_png false = .error Fault.buffer := rfl
  rw [h'] at h
  cases h

end DvTutorial
